import Mathlib

/-!
Verification development for the site lifecycle orchestrator
(`agent/site.py`).  Each Python operation that the claims touch is
shallowly embedded as an executable Lean definition; external
collaborators (the command runner, the database, the filesystem) are
modelled as explicit oracle parameters so that every control path of the
source is represented.
-/

namespace Agent

/-! ## Configuration documents (`site_config.json`)

A configuration document is a Python `dict` loaded from JSON: an ordered
association of string keys to values, with at most one binding per key.
We embed it as an association list; `lookupD` is `d.get(k)`, `dictSet`
is `d[k] = v` (replace in place, else append), `dictPop` is
`d.pop(k, None)`. -/

abbrev Doc (V : Type) := List (String × V)

/-- Python `d.get(k)`: the value of the first binding of `k`, if any. -/
def lookupD {V : Type} : Doc V → String → Option V
  | [], _ => none
  | p :: rest, k => if p.1 = k then some p.2 else lookupD rest k

/-- Python `d[k] = v`: replace the binding of `k` in place, or append it. -/
def dictSet {V : Type} : Doc V → String → V → Doc V
  | [], k, v => [(k, v)]
  | p :: rest, k, v =>
      if p.1 = k then (k, v) :: rest else p :: dictSet rest k v

/-- Python `d.update(adds)`: set every binding of `adds` in order
(later bindings of the same key overwrite earlier ones). -/
def dictUpdate {V : Type} (d : Doc V) (adds : List (String × V)) : Doc V :=
  adds.foldl (fun acc p => dictSet acc p.1 p.2) d

/-- Python `d.pop(k, None)`: remove the binding of `k`; absent keys are a no-op. -/
def dictPop {V : Type} : Doc V → String → Doc V
  | [], _ => []
  | p :: rest, k => if p.1 = k then dictPop rest k else p :: dictPop rest k

/-- Embeds `Site.update_config(value, remove)` (site.py lines 207-223): read the
current document, merge `value` over it, then pop every key of `remove`,
and persist the result. -/
def update_config {V : Type} (cfg : Doc V) (value : List (String × V))
    (remove : List String) : Doc V :=
  let new_config := dictUpdate cfg value
  remove.foldl (fun acc k => dictPop acc k) new_config

/-- The value the merge assigns to `k`: the last binding of `k` in the
additions, if any. -/
def lastVal {V : Type} : List (String × V) → String → Option V
  | [], _ => none
  | p :: rest, k =>
      match lastVal rest k with
      | some v => some v
      | none => if p.1 = k then some p.2 else none

theorem lookupD_dictSet {V : Type} (d : Doc V) (j k : String) (v : V) :
    lookupD (dictSet d j v) k = if k = j then some v else lookupD d k := by
  induction d with
  | nil =>
      by_cases h : k = j
      · simp [dictSet, lookupD, h]
      · simp [dictSet, lookupD, h, Ne.symm h]
  | cons p rest ih =>
      by_cases hp : p.1 = j
      · by_cases h : k = j
        · simp [dictSet, lookupD, hp, h]
        · simp [dictSet, lookupD, hp, h, Ne.symm h]
      · by_cases hk : p.1 = k
        · have hkj : ¬ k = j := fun h => hp (hk.trans h)
          simp [dictSet, lookupD, hp, hk, hkj]
        · simp [dictSet, lookupD, hp, hk, ih]

theorem lastVal_cons {V : Type} (p : String × V) (rest : List (String × V))
    (k : String) :
    lastVal (p :: rest) k =
      match lastVal rest k with
      | some v => some v
      | none => if p.1 = k then some p.2 else none := rfl

theorem lookupD_dictUpdate {V : Type} (adds : List (String × V)) (d : Doc V)
    (k : String) :
    lookupD (dictUpdate d adds) k =
      match lastVal adds k with
      | some v => some v
      | none => lookupD d k := by
  induction adds generalizing d with
  | nil => simp [dictUpdate, lastVal]
  | cons p rest ih =>
      have step : dictUpdate d (p :: rest) = dictUpdate (dictSet d p.1 p.2) rest := by
        simp [dictUpdate]
      rw [step, ih, lastVal_cons]
      cases hrest : lastVal rest k with
      | some v => simp
      | none =>
          by_cases hpk : p.1 = k
          · simp [hpk, lookupD_dictSet]
          · simp [hpk, lookupD_dictSet, Ne.symm hpk]

theorem lookupD_dictPop {V : Type} (d : Doc V) (j k : String) :
    lookupD (dictPop d j) k = if k = j then none else lookupD d k := by
  induction d with
  | nil => simp [dictPop, lookupD]
  | cons p rest ih =>
      by_cases hpj : p.1 = j
      · by_cases hkj : k = j
        · simp [dictPop, lookupD, hpj, hkj] at ih ⊢
          exact ih
        · simp [dictPop, lookupD, hpj, hkj, Ne.symm hkj] at ih ⊢
          exact ih
      · by_cases hpk : p.1 = k
        · have hkj : ¬ k = j := fun h => hpj (hpk.trans h)
          simp [dictPop, lookupD, hpj, hpk, hkj]
        · simp [dictPop, lookupD, hpj, hpk, ih]

theorem lookupD_popFold {V : Type} (rems : List String) (d : Doc V) (k : String) :
    lookupD (rems.foldl (fun acc j => dictPop acc j) d) k =
      if k ∈ rems then none else lookupD d k := by
  induction rems generalizing d with
  | nil => simp
  | cons r rest ih =>
      simp only [List.foldl, ih, lookupD_dictPop]
      by_cases hk : k = r
      · simp [hk]
      · by_cases hm : k ∈ rest <;> simp [hk, hm]

/-- Full characterisation of `update_config`: a removed key is absent,
an added (and not removed) key has its last added value, and every other
key keeps the prior document's value. -/
theorem update_config_char {V : Type} (cfg : Doc V) (adds : List (String × V))
    (rems : List String) (k : String) :
    lookupD (update_config cfg adds rems) k =
      if k ∈ rems then none
      else
        match lastVal adds k with
        | some v => some v
        | none => lookupD cfg k := by
  unfold update_config
  rw [lookupD_popFold, lookupD_dictUpdate]

/-! ## Domain workflows (`add_domain` / `remove_domain`, lines 225-239)

The source reads `config.get("domains", [])` into a Python `set`,
mutates it, and writes it back as a list, then regenerates the proxy
configuration and reloads it.  We model the set round-trip as `dedup`
(each distinct domain kept once; Python's `list(set(...))` order is
arbitrary, and the claims only concern the underlying set), and the two
nginx collaborator calls as counters. -/

structure DomainState where
  domains : List String
  nginxSetups : Nat
  nginxReloads : Nat

/-- Embeds `Site.add_domain(domain)`: domains-set union with `{domain}`, write
back, `setup_nginx`, `reload_nginx`. -/
def add_domain (s : DomainState) (domain : String) : DomainState :=
  let domains := s.domains.dedup
  let domains := if domain ∈ domains then domains else domains ++ [domain]
  { domains := domains
    nginxSetups := s.nginxSetups + 1
    nginxReloads := s.nginxReloads + 1 }

/-- Embeds `Site.remove_domain(domain)`: domains-set `discard domain`, write
back, `setup_nginx`, `reload_nginx`. -/
def remove_domain (s : DomainState) (domain : String) : DomainState :=
  let domains := s.domains.dedup
  let domains := domains.filter (fun d => d ≠ domain)
  { domains := domains
    nginxSetups := s.nginxSetups + 1
    nginxReloads := s.nginxReloads + 1 }

/-! ## App reconciliation (`uninstall_unavailable_apps`, lines 394-402)

The step lists the installed apps, and for each one not in the keep-set
issues a `remove-from-installed-apps` command followed by `clear-cache`.
We record the issued bench commands as a trace. -/

inductive AppAction where
  | uninstall (app : String)
  | clearCache
  deriving DecidableEq

/-- Embeds `Site.uninstall_unavailable_apps(apps_to_keep)`: iterate the
installed apps in order; for each app not in the keep-set, uninstall it
and clear the cache. -/
def uninstall_unavailable_apps (installed_apps apps_to_keep : List String) :
    List AppAction :=
  installed_apps.foldl
    (fun acc app =>
      if app ∈ apps_to_keep then acc
      else acc ++ [AppAction.uninstall app, AppAction.clearCache]) []

/-- The apps still installed after the step: those never uninstalled. -/
def final_apps (installed_apps apps_to_keep : List String) : List String :=
  installed_apps.filter
    (fun app =>
      decide (AppAction.uninstall app ∉
        uninstall_unavailable_apps installed_apps apps_to_keep))

theorem mem_uninstall_foldl (apps_to_keep : List String)
    (installed_apps : List String) :
    ∀ (acc : List AppAction) (app : String),
      (AppAction.uninstall app ∈ installed_apps.foldl
        (fun acc app =>
          if app ∈ apps_to_keep then acc
          else acc ++ [AppAction.uninstall app, AppAction.clearCache]) acc) ↔
      (AppAction.uninstall app ∈ acc ∨
        (app ∈ installed_apps ∧ app ∉ apps_to_keep)) := by
  induction installed_apps with
  | nil => simp
  | cons a rest ih =>
      intro acc app
      simp only [List.foldl, ih]
      by_cases ha : a ∈ apps_to_keep
      · simp only [if_pos ha, List.mem_cons]
        constructor
        · rintro (h | ⟨hm, hk⟩)
          · exact Or.inl h
          · exact Or.inr ⟨Or.inr hm, hk⟩
        · rintro (h | ⟨hm | hm, hk⟩)
          · exact Or.inl h
          · exact absurd (hm ▸ ha) hk
          · exact Or.inr ⟨hm, hk⟩
      · simp only [if_neg ha, List.mem_append, List.mem_cons,
          List.mem_singleton]
        constructor
        · rintro ((h | h | h | h) | ⟨hm, hk⟩)
          · exact Or.inl h
          · exact Or.inr ⟨Or.inl (by injection h), by injection h with h'; exact h' ▸ ha⟩
          · simp at h
          · cases h
          · exact Or.inr ⟨Or.inr hm, hk⟩
        · rintro (h | ⟨hm | hm, hk⟩)
          · exact Or.inl (Or.inl h)
          · exact Or.inl (Or.inr (Or.inl (by rw [hm])))
          · exact Or.inr ⟨hm, hk⟩

/-! ## Claim theorems over the configuration document -/

/-- C2 counterexample: the claim asserts that the resulting document
contains every key of the additions with its new value, but a key that
is simultaneously added and removed ends up absent — with an empty
document, additions `{a: 1}` and removals `[a]`, the result does not map
`a` to `1`. -/
theorem update_config_add_remove_cex :
    ¬ (lookupD (update_config ([] : Doc Nat) [("a", 1)] ["a"]) "a" = some 1) := by
  decide

/-- C2 (amended): `update_config` produces a document that contains
every key of the additions *not also listed in the removals* with its
(last) added value, omits every key of the removals, and maps every
other pre-existing key to its unchanged prior value. -/
theorem update_config_spec {V : Type} (cfg : Doc V) (adds : List (String × V))
    (rems : List String) :
    (∀ k v, lastVal adds k = some v → k ∉ rems →
      lookupD (update_config cfg adds rems) k = some v) ∧
    (∀ k, k ∈ rems → lookupD (update_config cfg adds rems) k = none) ∧
    (∀ k, k ∉ rems → lastVal adds k = none →
      lookupD (update_config cfg adds rems) k = lookupD cfg k) := by
  refine ⟨?_, ?_, ?_⟩
  · intro k v hv hk
    rw [update_config_char, if_neg hk, hv]
  · intro k hk
    rw [update_config_char, if_pos hk]
  · intro k hk hv
    rw [update_config_char, if_neg hk, hv]

/-- Witness for `update_config_spec` at a concrete document. -/
theorem update_config_spec_witness :
    lookupD (update_config [("x", 0), ("y", 7)] [("a", 1)] ["y"]) "a" = some 1 ∧
    lookupD (update_config [("x", 0), ("y", 7)] [("a", 1)] ["y"]) "y" = none ∧
    lookupD (update_config [("x", 0), ("y", 7)] [("a", 1)] ["y"]) "x" = some 0 :=
  ⟨(update_config_spec [("x", 0), ("y", 7)] [("a", 1)] ["y"]).1 "a" 1 (by decide)
      (by decide),
   (update_config_spec [("x", 0), ("y", 7)] [("a", 1)] ["y"]).2.1 "y" (by decide),
   (update_config_spec [("x", 0), ("y", 7)] [("a", 1)] ["y"]).2.2 "x" (by decide)
      (by decide)⟩

/-- C10: the removals of an `update_config` call are applied after the
merge of the additions, so a key that appears both in the additions map
and in the removals list is absent from the resulting document. -/
theorem update_config_remove_after_add {V : Type} (cfg : Doc V)
    (adds : List (String × V)) (rems : List String) (k : String)
    (hadd : k ∈ adds.map Prod.fst) (hrem : k ∈ rems) :
    lookupD (update_config cfg adds rems) k = none := by
  rw [update_config_char, if_pos hrem]

/-- Witness for `update_config_remove_after_add`. -/
theorem update_config_remove_after_add_witness :
    lookupD (update_config [("k0", 5)] [("k0", 1)] ["k0"]) "k0" = none :=
  update_config_remove_after_add [("k0", 5)] [("k0", 1)] ["k0"] "k0"
    (by decide) (by decide)

/-! ## Claim theorems for app reconciliation and domains -/

/-- C7: `uninstall_unavailable_apps` uninstalls exactly the installed
apps that are not in the keep-set and leaves the others untouched, so
the final app set is the keep-set intersected with the previously
installed set. -/
theorem uninstall_unavailable_apps_spec
    (installed_apps apps_to_keep : List String) :
    (∀ app, AppAction.uninstall app ∈
        uninstall_unavailable_apps installed_apps apps_to_keep ↔
      (app ∈ installed_apps ∧ app ∉ apps_to_keep)) ∧
    (∀ app, app ∈ final_apps installed_apps apps_to_keep ↔
      (app ∈ apps_to_keep ∧ app ∈ installed_apps)) := by
  have hmem := mem_uninstall_foldl apps_to_keep installed_apps
  constructor
  · intro app
    rw [uninstall_unavailable_apps, hmem]
    simp
  · intro app
    rw [final_apps]
    simp only [List.mem_filter, decide_eq_true_eq]
    rw [uninstall_unavailable_apps, hmem]
    simp only [List.not_mem_nil, false_or]
    constructor
    · rintro ⟨hi, hn⟩
      rcases Decidable.em (app ∈ apps_to_keep) with hk | hk
      · exact ⟨hk, hi⟩
      · exact absurd ⟨hi, hk⟩ hn
    · rintro ⟨hk, hi⟩
      exact ⟨hi, fun h => h.2 hk⟩

/-- C8: adding the same domain twice yields a configuration whose domain
list contains it exactly once; removing an absent domain leaves the
domain set unchanged while still regenerating and reloading the proxy
configuration. -/
theorem domain_mutation_spec (s : DomainState) (d : String) :
    ((add_domain (add_domain s d) d).domains.count d = 1) ∧
    (d ∉ s.domains →
      ((∀ x, x ∈ (remove_domain s d).domains ↔ x ∈ s.domains) ∧
       (remove_domain s d).nginxSetups = s.nginxSetups + 1 ∧
       (remove_domain s d).nginxReloads = s.nginxReloads + 1)) := by
  constructor
  · have h1 : d ∈ (add_domain s d).domains := by
      by_cases hd : d ∈ s.domains.dedup <;> simp [add_domain, hd]
    have h1n : (add_domain s d).domains.Nodup := by
      by_cases hd : d ∈ s.domains.dedup
      · simpa [add_domain, hd] using s.domains.nodup_dedup
      · simp only [add_domain, if_neg hd]
        refine (s.domains.nodup_dedup).append (List.nodup_singleton d) ?_
        intro a ha hb
        rw [List.mem_singleton] at hb
        exact hd (hb ▸ ha)
    have hded : (add_domain s d).domains.dedup = (add_domain s d).domains :=
      List.Nodup.dedup h1n
    have hmem : d ∈ (add_domain s d).domains.dedup := by
      rwa [hded]
    have h2 : (add_domain (add_domain s d) d).domains =
        if d ∈ (add_domain s d).domains.dedup then (add_domain s d).domains.dedup
        else (add_domain s d).domains.dedup ++ [d] := rfl
    rw [h2, if_pos hmem, hded]
    exact List.count_eq_one_of_mem h1n h1
  · intro hd
    refine ⟨?_, rfl, rfl⟩
    intro x
    simp only [remove_domain, List.mem_filter, List.mem_dedup, ne_eq,
      decide_not, Bool.not_eq_eq_eq_not, Bool.not_true, decide_eq_false_iff_not]
    constructor
    · exact fun h => h.1
    · intro hx
      exact ⟨hx, fun hxd => hd (hxd ▸ hx)⟩

/-- Witness for `domain_mutation_spec` at a concrete state. -/
theorem domain_mutation_spec_witness :
    ((add_domain (add_domain ⟨["a.com"], 0, 0⟩ "x.com") "x.com").domains.count
        "x.com" = 1) ∧
    ((∀ x, x ∈ (remove_domain ⟨["a.com"], 0, 0⟩ "x.com").domains ↔
        x ∈ ["a.com"]) ∧
     (remove_domain (⟨["a.com"], 0, 0⟩ : DomainState) "x.com").nginxSetups = 1 ∧
     (remove_domain (⟨["a.com"], 0, 0⟩ : DomainState) "x.com").nginxReloads = 1) :=
  ⟨(domain_mutation_spec ⟨["a.com"], 0, 0⟩ "x.com").1,
   (domain_mutation_spec ⟨["a.com"], 0, 0⟩ "x.com").2 (by decide)⟩

/-! ## Readiness poller (`wait_till_ready`, lines 339-352)

The step loops while the elapsed wall-clock time is below a 120-second
timeout: it runs the `ready-for-migration` probe, appends the success
output and breaks on success, or appends the captured failure payload
and sleeps one second on failure.  We embed the probe outcomes as an
oracle `probe : Nat → Except Nat Nat` (attempt number to failure payload
or success output) and the wall-clock cost of each probe call as
`dur : Nat → Nat` seconds; elapsed time is checked at the loop head
exactly as in the source. -/

def WAIT_TIMEOUT : Nat := 120

/-- A recorded attempt is a success output or a captured failure payload. -/
def isSuccessTry (t : Except Nat Nat) : Bool :=
  match t with
  | Except.ok _ => true
  | Except.error _ => false

structure PollResult where
  tries : List (Except Nat Nat)
  elapsed : Nat
  sleeps : Nat

/-- The `while (time.time() - start) < WAIT_TIMEOUT` loop body of
`Site.wait_till_ready`.  `i` is the attempt number, `elapsed` the
wall-clock seconds since `start`, `acc` the `data["tries"]` list so far,
`sleeps` the number of 1-second sleeps performed so far. -/
def wait_loop (probe : Nat → Except Nat Nat) (dur : Nat → Nat)
    (i elapsed : Nat) (acc : List (Except Nat Nat)) (sleeps : Nat) :
    PollResult :=
  if h : elapsed < WAIT_TIMEOUT then
    match probe i with
    | Except.ok output => ⟨acc ++ [Except.ok output], elapsed + dur i, sleeps⟩
    | Except.error e =>
        wait_loop probe dur (i + 1) (elapsed + dur i + 1)
          (acc ++ [Except.error e]) (sleeps + 1)
  else ⟨acc, elapsed, sleeps⟩
termination_by WAIT_TIMEOUT - elapsed
decreasing_by
  simp_wf
  omega

/-- Embeds `Site.wait_till_ready()`: run the polling loop from a fresh start. -/
def wait_till_ready (probe : Nat → Except Nat Nat) (dur : Nat → Nat) :
    PollResult :=
  wait_loop probe dur 0 0 [] 0


theorem wait_loop_char (probe : Nat → Except Nat Nat) (dur : Nat → Nat) :
    ∀ (fuel elapsed : Nat), WAIT_TIMEOUT - elapsed ≤ fuel →
    ∀ (i : Nat) (acc : List (Except Nat Nat)) (sleeps : Nat),
      ∃ t : List (Except Nat Nat),
        (wait_loop probe dur i elapsed acc sleeps).tries = acc ++ t ∧
        (∀ j, j < t.length → t.get? j = some (probe (i + j))) ∧
        (∀ j, j + 1 < t.length → isSuccessTry (probe (i + j)) = false) ∧
        (wait_loop probe dur i elapsed acc sleeps).sleeps =
          sleeps + (t.countP fun x => !(isSuccessTry x)) ∧
        ((∃ o, t.getLast? = some (Except.ok o)) ∨
          (WAIT_TIMEOUT ≤ (wait_loop probe dur i elapsed acc sleeps).elapsed ∧
            ∀ x ∈ t, isSuccessTry x = false)) ∧
        (elapsed < WAIT_TIMEOUT → t ≠ []) := by
  intro fuel
  induction fuel with
  | zero =>
      intro elapsed hfuel i acc sleeps
      have hge : ¬ elapsed < WAIT_TIMEOUT := by omega
      refine ⟨[], ?_, ?_, ?_, ?_, ?_, ?_⟩
      · rw [wait_loop, dif_neg hge]
        simp
      · intro j h; cases h
      · intro j h
        simp at h
      · rw [wait_loop, dif_neg hge]
        simp
      · refine Or.inr ⟨?_, ?_⟩
        · rw [wait_loop, dif_neg hge]
          show WAIT_TIMEOUT ≤ elapsed
          omega
        · intro x hx; cases hx
      · intro h; exact absurd h hge
  | succ fuel ih =>
      intro elapsed hfuel i acc sleeps
      by_cases h : elapsed < WAIT_TIMEOUT
      · cases hp : probe i with
        | ok output =>
            refine ⟨[Except.ok output], ?_, ?_, ?_, ?_, ?_, ?_⟩
            · rw [wait_loop, dif_pos h, hp]
            · intro j hj
              have hj0 : j = 0 := by simp at hj; omega
              subst hj0
              simp [hp]
            · intro j hj1
              simp at hj1
            · rw [wait_loop, dif_pos h, hp]
              simp [isSuccessTry]
            · exact Or.inl ⟨output, rfl⟩
            · intro _; simp
        | error e =>
            have hfuel2 : WAIT_TIMEOUT - (elapsed + dur i + 1) ≤ fuel := by omega
            obtain ⟨t2, ht1, ht2, ht3, ht4, ht5, ht6⟩ :=
              ih (elapsed + dur i + 1) hfuel2 (i + 1) (acc ++ [Except.error e])
                (sleeps + 1)
            have hstep : wait_loop probe dur i elapsed acc sleeps =
                wait_loop probe dur (i + 1) (elapsed + dur i + 1)
                  (acc ++ [Except.error e]) (sleeps + 1) := by
              rw [wait_loop, dif_pos h, hp]
            refine ⟨Except.error e :: t2, ?_, ?_, ?_, ?_, ?_, ?_⟩
            · rw [hstep, ht1]
              simp
            · intro j hj
              cases j with
              | zero => simp [hp]
              | succ j2 =>
                  have hj2 : j2 < t2.length := by simpa using hj
                  have hx := ht2 j2 hj2
                  simp only [List.get?_cons_succ]
                  rw [hx]
                  congr 2
                  omega
            · intro j hj1
              cases j with
              | zero =>
                  simp [hp, isSuccessTry]
              | succ j2 =>
                  have hj2 : j2 + 1 < t2.length := by simpa using hj1
                  have hx := ht3 j2 hj2
                  rw [show i + (j2 + 1) = i + 1 + j2 by omega]
                  exact hx
            · rw [hstep, ht4]
              simp [isSuccessTry, List.countP_cons]
              omega
            · rcases ht5 with ⟨o, ho⟩ | ⟨helap, hall⟩
              · left
                refine ⟨o, ?_⟩
                cases t2 with
                | nil => cases ho
                | cons a l => rw [List.getLast?_cons_cons]; exact ho
              · right
                rw [hstep]
                refine ⟨helap, ?_⟩
                intro x hx
                rcases List.mem_cons.mp hx with hx | hx
                · rw [hx]; rfl
                · exact hall x hx
            · intro _; simp
      · have hge := h
        refine ⟨[], ?_, ?_, ?_, ?_, ?_, ?_⟩
        · rw [wait_loop, dif_neg hge]
          simp
        · intro j hj; cases hj
        · intro j hj1
          simp at hj1
        · rw [wait_loop, dif_neg hge]
          simp
        · refine Or.inr ⟨?_, ?_⟩
          · rw [wait_loop, dif_neg hge]
            show WAIT_TIMEOUT ≤ elapsed
            omega
          · intro x hx; cases hx
        · intro hcon; exact absurd hcon hge

/-- C3: for every sequence of probe outcomes, `wait_till_ready` returns
normally with a non-empty attempt list: the `j`-th recorded attempt is
exactly the `j`-th probe outcome (success output or failure payload),
every attempt before the last is a failure, each recorded failure is
followed by exactly one 1-second sleep, and the loop ends either because
an attempt succeeded or because elapsed wall-clock time reached the
120-second timeout — in which case every recorded attempt is a
failure. -/
theorem wait_till_ready_spec (probe : Nat → Except Nat Nat) (dur : Nat → Nat) :
    (wait_till_ready probe dur).tries ≠ [] ∧
    (∀ j, j < (wait_till_ready probe dur).tries.length →
      (wait_till_ready probe dur).tries.get? j = some (probe j)) ∧
    (∀ j, j + 1 < (wait_till_ready probe dur).tries.length →
      isSuccessTry (probe j) = false) ∧
    ((wait_till_ready probe dur).sleeps =
      (wait_till_ready probe dur).tries.countP (fun x => !(isSuccessTry x))) ∧
    ((∃ o, (wait_till_ready probe dur).tries.getLast? = some (Except.ok o)) ∨
      (WAIT_TIMEOUT ≤ (wait_till_ready probe dur).elapsed ∧
        ∀ x ∈ (wait_till_ready probe dur).tries, isSuccessTry x = false)) := by
  have hw : wait_till_ready probe dur = wait_loop probe dur 0 0 [] 0 := rfl
  obtain ⟨t, ht1, ht2, ht3, ht4, ht5, ht6⟩ :=
    wait_loop_char probe dur WAIT_TIMEOUT 0 (by omega) 0 [] 0
  rw [List.nil_append] at ht1
  rw [hw, ht1]
  refine ⟨?_, ?_, ?_, ?_, ?_⟩
  · exact ht6 (by rw [WAIT_TIMEOUT]; omega)
  · intro j hj
    simpa using ht2 j hj
  · intro j hj1
    simpa using ht3 j hj1
  · simpa using ht4
  · rcases ht5 with hok | ⟨helap, hall⟩
    · exact Or.inl hok
    · exact Or.inr ⟨helap, hall⟩


/-! ## Backup artifact discovery (`fetch_latest_backup`, lines 523-552)

The method lists the fixed backup-output directory and classifies each
file by filename suffix: database dumps first (plain or encrypted), then
private file archives, then public file archives — an `elif` chain, so
the earlier checks take priority.  For each required role it selects the
candidate with the latest modification time via Python `max` (which
keeps the earlier element on ties).  We embed a directory entry as a
filename (list of characters, so suffix tests are ordinary list suffix
tests) plus its modification time and size. -/

structure BackupFile where
  name : List Char
  mtime : Nat
  size : Nat
  deriving DecidableEq

inductive Role where
  | database
  | privateFiles
  | publicFiles
  deriving DecidableEq

/-- Suffix classification of one directory entry, in source order:
`database.sql.gz` / `database-enc.sql.gz`, else `private-files.tar` /
`private-files-enc.tar`, else `files.tar` / `files-enc.tar`, else
skipped. -/
def classify (file : List Char) : Option Role :=
  if "database.sql.gz".toList.isSuffixOf file ||
      "database-enc.sql.gz".toList.isSuffixOf file then
    some Role.database
  else if "private-files.tar".toList.isSuffixOf file ||
      "private-files-enc.tar".toList.isSuffixOf file then
    some Role.privateFiles
  else if "files.tar".toList.isSuffixOf file ||
      "files-enc.tar".toList.isSuffixOf file then
    some Role.publicFiles
  else
    none

def databaseCandidates (listing : List BackupFile) : List BackupFile :=
  listing.filter (fun f => decide (classify f.name = some Role.database))

def privateCandidates (listing : List BackupFile) : List BackupFile :=
  listing.filter (fun f => decide (classify f.name = some Role.privateFiles))

def publicCandidates (listing : List BackupFile) : List BackupFile :=
  listing.filter (fun f => decide (classify f.name = some Role.publicFiles))

/-- Python `max(candidates, key=os.path.getmtime)`: latest modification
time, keeping the earlier element on ties; raises on an empty list
(modelled as `none`). -/
def maxByMtime : List BackupFile → Option BackupFile
  | [] => none
  | f :: fs => some (fs.foldl (fun best g => if best.mtime < g.mtime then g else best) f)

structure BackupSet where
  database : BackupFile
  privateBackup : Option BackupFile
  publicBackup : Option BackupFile
  deriving DecidableEq

/-- Embeds `Site.fetch_latest_backup(with_files)`: classify the directory
listing, then pick the latest-modified candidate per role — the
`database` role always, the `private` and `public` roles only when
files were requested.  A required role with no candidate makes the
call fail (Python `max` raises on an empty sequence). -/
def fetch_latest_backup (listing : List BackupFile) (with_files : Bool) :
    Option BackupSet :=
  match maxByMtime (databaseCandidates listing) with
  | none => none
  | some db =>
      if with_files then
        match maxByMtime (privateCandidates listing) with
        | none => none
        | some pv =>
            match maxByMtime (publicCandidates listing) with
            | none => none
            | some pb => some ⟨db, some pv, some pb⟩
      else some ⟨db, none, none⟩

theorem foldl_max_spec (fs : List BackupFile) :
    ∀ f : BackupFile,
      (fs.foldl (fun best g => if best.mtime < g.mtime then g else best) f) ∈ f :: fs ∧
      ∀ x ∈ f :: fs, x.mtime ≤
        (fs.foldl (fun best g => if best.mtime < g.mtime then g else best) f).mtime := by
  induction fs with
  | nil =>
      intro f
      simp
  | cons g rest ih =>
      intro f
      simp only [List.foldl]
      by_cases hg : f.mtime < g.mtime
      · rw [if_pos hg]
        obtain ⟨hmem, hmax⟩ := ih g
        constructor
        · exact List.mem_cons.mpr (Or.inr hmem)
        · intro x hx
          rcases List.mem_cons.mp hx with hx | hx
          · exact hx ▸ le_of_lt (lt_of_lt_of_le hg (hmax g (List.mem_cons_self g rest)))
          · exact hmax x hx
      · rw [if_neg hg]
        obtain ⟨hmem, hmax⟩ := ih f
        constructor
        · rcases List.mem_cons.mp hmem with hx | hx
          · exact List.mem_cons.mpr (Or.inl hx)
          · exact List.mem_cons.mpr (Or.inr (List.mem_cons.mpr (Or.inr hx)))
        · intro x hx
          rcases List.mem_cons.mp hx with hx | hx
          · exact hmax x (hx ▸ List.mem_cons_self f rest)
          · rcases List.mem_cons.mp hx with hx | hx
            · exact hx ▸ le_trans (le_of_not_lt hg) (hmax f (List.mem_cons_self f rest))
            · exact hmax x (List.mem_cons.mpr (Or.inr hx))

theorem maxByMtime_spec (l : List BackupFile) (hl : l ≠ []) :
    ∃ m, maxByMtime l = some m ∧ m ∈ l ∧ ∀ x ∈ l, x.mtime ≤ m.mtime := by
  cases l with
  | nil => exact absurd rfl hl
  | cons f fs =>
      obtain ⟨hmem, hmax⟩ := foldl_max_spec fs f
      exact ⟨_, rfl, hmem, hmax⟩

/-- C4: whenever a required role — `database` always, `private` and
`public` when files were requested — has zero candidate files in the
backup directory, `fetch_latest_backup` fails. -/
theorem fetch_latest_backup_no_backup_found (listing : List BackupFile)
    (with_files : Bool)
    (h : databaseCandidates listing = [] ∨
      (with_files = true ∧
        (privateCandidates listing = [] ∨ publicCandidates listing = []))) :
    fetch_latest_backup listing with_files = none := by
  rcases h with hdb | ⟨hwf, hrole⟩
  · rw [fetch_latest_backup, hdb]
    rfl
  · subst hwf
    rw [fetch_latest_backup]
    cases hm : maxByMtime (databaseCandidates listing) with
    | none => rfl
    | some db =>
        rcases hrole with hpv | hpb
        · rw [hpv]
          rfl
        · rw [hpb]
          cases maxByMtime (privateCandidates listing) with
          | none => rfl
          | some pv => rfl

/-- Witness for `fetch_latest_backup_no_backup_found`: one database dump
but no file archives, with files requested. -/
theorem fetch_latest_backup_no_backup_found_witness :
    fetch_latest_backup [⟨"x.database.sql.gz".toList, 5, 1⟩] true = none :=
  fetch_latest_backup_no_backup_found [⟨"x.database.sql.gz".toList, 5, 1⟩] true
    (Or.inr ⟨rfl, Or.inl (by decide)⟩)

/-- C5: with at least one candidate per required role,
`fetch_latest_backup` succeeds, selecting for each role the candidate
with the latest modification time; the `private`/`public` roles are
present exactly when files were requested. -/
theorem fetch_latest_backup_selects_latest (listing : List BackupFile)
    (with_files : Bool)
    (hdb : databaseCandidates listing ≠ [])
    (hpv : with_files = true → privateCandidates listing ≠ [])
    (hpb : with_files = true → publicCandidates listing ≠ []) :
    ∃ r : BackupSet, fetch_latest_backup listing with_files = some r ∧
      r.database ∈ databaseCandidates listing ∧
      (∀ x ∈ databaseCandidates listing, x.mtime ≤ r.database.mtime) ∧
      (with_files = true → ∃ pv pb,
        r.privateBackup = some pv ∧ r.publicBackup = some pb ∧
        pv ∈ privateCandidates listing ∧
        (∀ x ∈ privateCandidates listing, x.mtime ≤ pv.mtime) ∧
        pb ∈ publicCandidates listing ∧
        (∀ x ∈ publicCandidates listing, x.mtime ≤ pb.mtime)) ∧
      (with_files = false → r.privateBackup = none ∧ r.publicBackup = none) := by
  obtain ⟨db, hdbEq, hdbMem, hdbMax⟩ := maxByMtime_spec _ hdb
  cases with_files with
  | false =>
      refine ⟨⟨db, none, none⟩, ?_, hdbMem, hdbMax, ?_, ?_⟩
      · rw [fetch_latest_backup, hdbEq]
        rfl
      · intro hcon; cases hcon
      · intro _; exact ⟨rfl, rfl⟩
  | true =>
      obtain ⟨pv, hpvEq, hpvMem, hpvMax⟩ := maxByMtime_spec _ (hpv rfl)
      obtain ⟨pb, hpbEq, hpbMem, hpbMax⟩ := maxByMtime_spec _ (hpb rfl)
      refine ⟨⟨db, some pv, some pb⟩, ?_, hdbMem, hdbMax, ?_, ?_⟩
      · rw [fetch_latest_backup, hdbEq]
        simp only [if_pos]
        rw [hpvEq, hpbEq]
      · intro _
        exact ⟨pv, pb, rfl, rfl, hpvMem, hpvMax, hpbMem, hpbMax⟩
      · intro hcon; cases hcon

/-- Witness for `fetch_latest_backup_selects_latest`: given an older
`a.database.sql.gz` and a newer `b.database.sql.gz`, the newer file is
selected as the database artifact. -/
theorem fetch_latest_backup_selects_latest_witness :
    (∃ r : BackupSet,
      fetch_latest_backup
        [⟨"a.database.sql.gz".toList, 1, 10⟩, ⟨"b.database.sql.gz".toList, 2, 20⟩]
        false = some r ∧
      r.database ∈ databaseCandidates
        [⟨"a.database.sql.gz".toList, 1, 10⟩, ⟨"b.database.sql.gz".toList, 2, 20⟩] ∧
      (∀ x ∈ databaseCandidates
        [⟨"a.database.sql.gz".toList, 1, 10⟩, ⟨"b.database.sql.gz".toList, 2, 20⟩],
        x.mtime ≤ r.database.mtime) ∧
      (false = true → ∃ pv pb,
        r.privateBackup = some pv ∧ r.publicBackup = some pb ∧
        pv ∈ privateCandidates
          [⟨"a.database.sql.gz".toList, 1, 10⟩, ⟨"b.database.sql.gz".toList, 2, 20⟩] ∧
        (∀ x ∈ privateCandidates
          [⟨"a.database.sql.gz".toList, 1, 10⟩, ⟨"b.database.sql.gz".toList, 2, 20⟩],
          x.mtime ≤ pv.mtime) ∧
        pb ∈ publicCandidates
          [⟨"a.database.sql.gz".toList, 1, 10⟩, ⟨"b.database.sql.gz".toList, 2, 20⟩] ∧
        (∀ x ∈ publicCandidates
          [⟨"a.database.sql.gz".toList, 1, 10⟩, ⟨"b.database.sql.gz".toList, 2, 20⟩],
          x.mtime ≤ pb.mtime)) ∧
      (false = false → r.privateBackup = none ∧ r.publicBackup = none)) ∧
    fetch_latest_backup
      [⟨"a.database.sql.gz".toList, 1, 10⟩, ⟨"b.database.sql.gz".toList, 2, 20⟩]
      false = some ⟨⟨"b.database.sql.gz".toList, 2, 20⟩, none, none⟩ :=
  ⟨fetch_latest_backup_selects_latest
      [⟨"a.database.sql.gz".toList, 1, 10⟩, ⟨"b.database.sql.gz".toList, 2, 20⟩]
      false (by decide) (by decide) (by decide),
   by decide⟩

theorem getLast?_of_suffix {a l : List Char} (h : a <:+ l) (ha : a ≠ []) :
    l.getLast? = a.getLast? := by
  obtain ⟨t, rfl⟩ := h
  cases a with
  | nil => exact absurd rfl ha
  | cons x xs => exact List.getLast?_append_of_ne_nil t (by simp)

/-- C9: a file whose name ends with `private-files.tar` or
`private-files-enc.tar` is always classified into the private role and
never into the public role, even though such a name also ends with
`files.tar`: the private suffix check is applied before the public
one. -/
theorem classify_private_before_public (file : List Char)
    (h : "private-files.tar".toList.isSuffixOf file = true ∨
      "private-files-enc.tar".toList.isSuffixOf file = true) :
    classify file = some Role.privateFiles := by
  have hlast : file.getLast? = some (Char.ofNat 114) := by
    rcases h with h | h
    · rw [List.isSuffixOf_iff_suffix] at h
      rw [getLast?_of_suffix h (by decide)]
      decide
    · rw [List.isSuffixOf_iff_suffix] at h
      rw [getLast?_of_suffix h (by decide)]
      decide
  have hdb1 : "database.sql.gz".toList.isSuffixOf file = false := by
    by_contra hcon
    rw [Bool.not_eq_false, List.isSuffixOf_iff_suffix] at hcon
    rw [getLast?_of_suffix hcon (by decide)] at hlast
    exact absurd hlast (by decide)
  have hdb2 : "database-enc.sql.gz".toList.isSuffixOf file = false := by
    by_contra hcon
    rw [Bool.not_eq_false, List.isSuffixOf_iff_suffix] at hcon
    rw [getLast?_of_suffix hcon (by decide)] at hlast
    exact absurd hlast (by decide)
  have hpriv : ("private-files.tar".toList.isSuffixOf file ||
      "private-files-enc.tar".toList.isSuffixOf file) = true := by
    rcases h with h | h
    · rw [h]
      rfl
    · rw [h]
      exact Bool.or_true _
  rw [classify, hdb1, hdb2]
  simp only [Bool.or_self, Bool.false_or, if_false]
  rw [hpriv]
  rfl

/-- Witness for `classify_private_before_public`. -/
theorem classify_private_before_public_witness :
    classify "20251001.private-files.tar".toList = some Role.privateFiles :=
  classify_private_before_public "20251001.private-files.tar".toList
    (Or.inl (by decide))


/-! ## Table-wise backup (`clear_backup_directory` lines 354-358,
`tablewise_backup` lines 360-372)

`clear_backup_directory` removes the staging directory if it exists and
recreates it empty.  `tablewise_backup` iterates the live table list and,
for each table, shells out to `mysqldump --single-transaction ...`
redirected into `<staging>/<table>.sql`, recording the command output in
`data["tables"][table]`.  The shell is an oracle `run : String → Nat`
from the exact command line to its captured output. -/

structure BackupDirState where
  dirExists : Bool
  files : List String

/-- Embeds `Site.clear_backup_directory()`: `rmtree` if present, then `mkdir`. -/
def clear_backup_directory (fs : BackupDirState) : BackupDirState :=
  let removed :=
    if fs.dirExists then ({ dirExists := false, files := [] } : BackupDirState)
    else fs
  { removed with dirExists := true, files := [] }

/-- Path `os.path.join(self.backup_directory, table + ".sql")`. -/
def backupFilePath (backup_directory table : String) : String :=
  backup_directory ++ "/" ++ table ++ ".sql"

/-- The mysqldump command line built for one table. -/
def dumpCmd (host user password database backup_directory table : String) :
    String :=
  "mysqldump --single-transaction --quick --lock-tables=false " ++
  ("-h " ++ host ++ " -u " ++ user ++ " -p" ++ password ++ " ") ++
  (database ++ " \x27" ++ table ++ "\x27 ") ++
  ("> \x27" ++ backupFilePath backup_directory table ++ "\x27")

/-- Embeds `Site.tablewise_backup()`: one dump per table, outputs recorded into
the `data["tables"]` dictionary. -/
def tablewise_backup (run : String → Nat)
    (host user password database backup_directory : String)
    (tables : List String) : Doc Nat :=
  tables.foldl
    (fun data table =>
      dictSet data table
        (run (dumpCmd host user password database backup_directory table)))
    []

theorem dictSet_absent {V : Type} (d : Doc V) (k : String) (v : V)
    (h : ∀ p ∈ d, p.1 ≠ k) : dictSet d k v = d ++ [(k, v)] := by
  induction d with
  | nil => rfl
  | cons p rest ih =>
      have hp : p.1 ≠ k := h p (List.mem_cons_self p rest)
      rw [dictSet, if_neg hp, ih (fun q hq => h q (List.mem_cons.mpr (Or.inr hq)))]
      rfl

theorem foldl_dictSet_fresh {V : Type} (val : String → V) :
    ∀ (tables : List String) (acc : Doc V), tables.Nodup →
      (∀ p ∈ acc, p.1 ∉ tables) →
      tables.foldl (fun d t => dictSet d t (val t)) acc =
        acc ++ tables.map (fun t => (t, val t)) := by
  intro tables
  induction tables with
  | nil => intro acc _ _; simp
  | cons t ts ih =>
      intro acc hnd hfresh
      have hset : dictSet acc t (val t) = acc ++ [(t, val t)] :=
        dictSet_absent acc t (val t)
          (fun p hp => fun he =>
            (hfresh p hp) (he ▸ List.mem_cons_self t ts))
      have hnd2 : ts.Nodup := (List.nodup_cons.mp hnd).2
      have hfresh2 : ∀ p ∈ acc ++ [(t, val t)], p.1 ∉ ts := by
        intro p hp
        rcases List.mem_append.mp hp with hp | hp
        · intro hmem
          exact (hfresh p hp) (List.mem_cons.mpr (Or.inr hmem))
        · rw [List.mem_singleton] at hp
          rw [hp]
          exact (List.nodup_cons.mp hnd).1
      calc (t :: ts).foldl (fun d t => dictSet d t (val t)) acc
          = ts.foldl (fun d t => dictSet d t (val t)) (dictSet acc t (val t)) := rfl
        _ = ts.foldl (fun d t => dictSet d t (val t)) (acc ++ [(t, val t)]) := by
              rw [hset]
        _ = (acc ++ [(t, val t)]) ++ ts.map (fun x => (x, val x)) :=
              ih (acc ++ [(t, val t)]) hnd2 hfresh2
        _ = acc ++ (t :: ts).map (fun x => (x, val x)) := by
              simp

/-- C6 (composition of the two steps — the job that sequences
`clear_backup_directory` before `tablewise_backup` lives outside this
module, so the composition is taken from the spec): the staging
directory is recreated empty, and the backup records exactly one output
entry per table, each produced by a single-transaction dump command
redirected into the per-table staging file `<table>.sql`. -/
theorem tablewise_backup_spec (run : String → Nat)
    (host user password database backup_directory : String)
    (fs : BackupDirState) (tables : List String) (hnd : tables.Nodup) :
    (clear_backup_directory fs).dirExists = true ∧
    (clear_backup_directory fs).files = [] ∧
    tablewise_backup run host user password database backup_directory tables =
      tables.map (fun t =>
        (t, run (dumpCmd host user password database backup_directory t))) ∧
    (∀ t, ∃ a b, dumpCmd host user password database backup_directory t =
      a ++ "--single-transaction" ++ b) ∧
    (∀ t, ∃ a, dumpCmd host user password database backup_directory t =
      a ++ (backupFilePath backup_directory t ++ "\x27")) ∧
    (∀ t, ∃ a, backupFilePath backup_directory t = a ++ ".sql") := by
  refine ⟨?_, ?_, ?_, ?_, ?_, ?_⟩
  · rw [clear_backup_directory]
  · rw [clear_backup_directory]
  · rw [tablewise_backup]
    rw [foldl_dictSet_fresh _ tables [] hnd (by intro p hp; cases hp)]
    rfl
  · intro t
    refine ⟨"mysqldump ",
      " --quick --lock-tables=false " ++
      ("-h " ++ host ++ " -u " ++ user ++ " -p" ++ password ++ " ") ++
      (database ++ " \x27" ++ t ++ "\x27 ") ++
      ("> \x27" ++ backupFilePath backup_directory t ++ "\x27"), ?_⟩
    have h1 : ("mysqldump " ++ "--single-transaction") ++
        " --quick --lock-tables=false " =
        "mysqldump --single-transaction --quick --lock-tables=false " := rfl
    rw [dumpCmd, ← h1]
    simp only [String.append_assoc]
  · intro t
    refine ⟨"mysqldump --single-transaction --quick --lock-tables=false " ++
      ("-h " ++ host ++ " -u " ++ user ++ " -p" ++ password ++ " ") ++
      (database ++ " \x27" ++ t ++ "\x27 ") ++ "> \x27", ?_⟩
    rw [dumpCmd]
    simp only [String.append_assoc]
  · intro t
    exact ⟨backup_directory ++ "/" ++ t, rfl⟩

/-- Witness for `tablewise_backup_spec` at a concrete table list. -/
theorem tablewise_backup_spec_witness :
    (clear_backup_directory ⟨true, ["old.sql"]⟩).dirExists = true ∧
    (clear_backup_directory ⟨true, ["old.sql"]⟩).files = [] ∧
    tablewise_backup String.length "h1" "siteuser" "pw" "sitedb" "/site/.migrate"
      ["tabUser", "tabItem"] =
      ["tabUser", "tabItem"].map (fun t =>
        (t, String.length (dumpCmd "h1" "siteuser" "pw" "sitedb" "/site/.migrate" t))) ∧
    (∀ t, ∃ a b, dumpCmd "h1" "siteuser" "pw" "sitedb" "/site/.migrate" t =
      a ++ "--single-transaction" ++ b) ∧
    (∀ t, ∃ a, dumpCmd "h1" "siteuser" "pw" "sitedb" "/site/.migrate" t =
      a ++ (backupFilePath "/site/.migrate" t ++ "\x27")) ∧
    (∀ t, ∃ a, backupFilePath "/site/.migrate" t = a ++ ".sql") :=
  tablewise_backup_spec String.length "h1" "siteuser" "pw" "sitedb"
    "/site/.migrate" ⟨true, ["old.sql"]⟩ ["tabUser", "tabItem"] (by decide)

/-! ## Restore / reinstall credential and staging-file cleanup
(`restore` lines 89-132, `reinstall` lines 170-189, `restore_job`
lines 134-164)

Both `restore` and `reinstall` provision a scoped MariaDB credential,
run the wrapped bench command inside `try:`, and drop the credential in
`finally:`.  `restore_job` downloads staging files, runs the restore
step inside `try:`, and deletes the downloaded files in `finally:`,
then continues with the remaining job steps.  We embed each external
call as an oracle outcome (`Except` failure payload / output) and record
the calls performed as a trace of effects; `seqE` is Python sequencing
with exception propagation and `tryFinallyE` is `try/finally` (the
`finally` block always runs; a failure raised by it replaces the body's
outcome). -/

inductive StepEff where
  | createUser
  | dropUser
  | restoreCmd
  | reinstallCmd
  | download
  | deleteFiles
  | uninstallApps
  | migrateCmd
  | setAdminPassword
  | enableScheduler
  | setupNginx
  | reloadNginx
  | listApps
  deriving DecidableEq

/-- Sequencing: if `x` raised, propagate; else continue with `k`. -/
def seqE {α β : Type} (x : Except Nat α × List StepEff)
    (k : α → Except Nat β × List StepEff) : Except Nat β × List StepEff :=
  match x with
  | (Except.error e, tr) => (Except.error e, tr)
  | (Except.ok a, tr) =>
      let (r, tr2) := k a
      (r, tr ++ tr2)

/-- Python `try: body finally: fin`: `fin` always runs after `body`; a
failure raised by `fin` replaces the body's outcome. -/
def tryFinallyE {α : Type} (body : Except Nat α × List StepEff)
    (fin : Except Nat Unit × List StepEff) : Except Nat α × List StepEff :=
  match body, fin with
  | (bres, btr), (fres, ftr) =>
      (match fres with
       | Except.error e => Except.error e
       | Except.ok _ => bres,
       btr ++ ftr)

/-- Embeds `Site.restore(...)`: create the scoped MariaDB user, run the bench
restore command, and drop the user in `finally:`. -/
def restore (create : Except Nat Unit) (run_restore : Except Nat Nat)
    (drop : Except Nat Unit) : Except Nat Nat × List StepEff :=
  seqE (create, [StepEff.createUser]) (fun _ =>
    tryFinallyE (run_restore, [StepEff.restoreCmd]) (drop, [StepEff.dropUser]))

/-- Embeds `Site.reinstall(...)`: create the scoped MariaDB user, run the bench
reinstall command, and drop the user in `finally:`. -/
def reinstall (create : Except Nat Unit) (run_reinstall : Except Nat Nat)
    (drop : Except Nat Unit) : Except Nat Nat × List StepEff :=
  seqE (create, [StepEff.createUser]) (fun _ =>
    tryFinallyE (run_reinstall, [StepEff.reinstallCmd]) (drop, [StepEff.dropUser]))

/-- The steps of `restore_job` after the guarded restore: reconcile
apps, migrate, set the admin password, enable the scheduler, regenerate
and reload nginx, list apps. -/
def restore_job_tail (uninstall migrate set_pwd sched nginx_s nginx_r
    list_apps : Except Nat Nat) : Except Nat Nat × List StepEff :=
  seqE (uninstall, [StepEff.uninstallApps]) (fun _ =>
    seqE (migrate, [StepEff.migrateCmd]) (fun _ =>
      seqE (set_pwd, [StepEff.setAdminPassword]) (fun _ =>
        seqE (sched, [StepEff.enableScheduler]) (fun _ =>
          seqE (nginx_s, [StepEff.setupNginx]) (fun _ =>
            seqE (nginx_r, [StepEff.reloadNginx]) (fun _ =>
              (list_apps, [StepEff.listApps])))))))

/-- Embeds `Site.restore_job(...)`: download the staging files, run the restore
step with the downloaded files inside `try:`, delete the downloaded
files in `finally:`, then run the remaining steps. -/
def restore_job (download : Except Nat Unit) (create : Except Nat Unit)
    (run_restore : Except Nat Nat) (drop : Except Nat Unit)
    (delete : Except Nat Unit)
    (uninstall migrate set_pwd sched nginx_s nginx_r list_apps :
      Except Nat Nat) : Except Nat Nat × List StepEff :=
  seqE (download, [StepEff.download]) (fun _ =>
    seqE (tryFinallyE (restore create run_restore drop)
        (delete, [StepEff.deleteFiles])) (fun _ =>
      restore_job_tail uninstall migrate set_pwd sched nginx_s nginx_r
        list_apps))

theorem restore_job_tail_count (uninstall migrate set_pwd sched nginx_s
    nginx_r list_apps : Except Nat Nat) :
    (restore_job_tail uninstall migrate set_pwd sched nginx_s nginx_r
      list_apps).2.count StepEff.dropUser = 0 ∧
    (restore_job_tail uninstall migrate set_pwd sched nginx_s nginx_r
      list_apps).2.count StepEff.deleteFiles = 0 := by
  cases uninstall <;> cases migrate <;> cases set_pwd <;> cases sched <;>
    cases nginx_s <;> cases nginx_r <;> cases list_apps <;> exact ⟨rfl, rfl⟩

/-- C1: whenever the scoped credential is provisioned, the restore and
reinstall steps drop it exactly once on every exit path (wrapped command
success or failure, drop success or failure); and whenever the staging
files are downloaded, `restore_job` deletes them exactly once on every
exit path of the wrapped restore step. -/
theorem cleanup_guarantee (create download delete drop : Except Nat Unit)
    (run_restore run_reinstall : Except Nat Nat)
    (uninstall migrate set_pwd sched nginx_s nginx_r list_apps :
      Except Nat Nat)
    (hcreate : create = Except.ok ())
    (hdownload : download = Except.ok ()) :
    ((restore create run_restore drop).2.count StepEff.dropUser = 1) ∧
    ((reinstall create run_reinstall drop).2.count StepEff.dropUser = 1) ∧
    ((restore_job download create run_restore drop delete uninstall migrate
        set_pwd sched nginx_s nginx_r list_apps).2.count
      StepEff.deleteFiles = 1) ∧
    ((restore_job download create run_restore drop delete uninstall migrate
        set_pwd sched nginx_s nginx_r list_apps).2.count
      StepEff.dropUser = 1) := by
  subst hcreate
  subst hdownload
  obtain ⟨htail_drop, htail_del⟩ := restore_job_tail_count uninstall migrate
    set_pwd sched nginx_s nginx_r list_apps
  refine ⟨rfl, rfl, ?_, ?_⟩
  · cases run_restore <;> cases drop <;> cases delete <;>
      simp [restore_job, restore, seqE, tryFinallyE, List.count_append,
        htail_del]
  · cases run_restore <;> cases drop <;> cases delete <;>
      simp [restore_job, restore, seqE, tryFinallyE, List.count_append,
        htail_drop]

/-- Witness for `cleanup_guarantee` at concrete outcomes, exercising a
failing restore command. -/
theorem cleanup_guarantee_witness :
    ((restore (Except.ok ()) (Except.error 7) (Except.ok ())).2.count
      StepEff.dropUser = 1) ∧
    ((reinstall (Except.ok ()) (Except.error 7) (Except.ok ())).2.count
      StepEff.dropUser = 1) ∧
    ((restore_job (Except.ok ()) (Except.ok ()) (Except.error 7)
        (Except.ok ()) (Except.ok ()) (Except.ok 1) (Except.ok 1)
        (Except.ok 1) (Except.ok 1) (Except.ok 1) (Except.ok 1)
        (Except.ok 1)).2.count StepEff.deleteFiles = 1) ∧
    ((restore_job (Except.ok ()) (Except.ok ()) (Except.error 7)
        (Except.ok ()) (Except.ok ()) (Except.ok 1) (Except.ok 1)
        (Except.ok 1) (Except.ok 1) (Except.ok 1) (Except.ok 1)
        (Except.ok 1)).2.count StepEff.dropUser = 1) :=
  cleanup_guarantee (Except.ok ()) (Except.ok ()) (Except.ok ())
    (Except.ok ()) (Except.error 7) (Except.error 7) (Except.ok 1)
    (Except.ok 1) (Except.ok 1) (Except.ok 1) (Except.ok 1) (Except.ok 1)
    (Except.ok 1) rfl rfl

end Agent
